import Mathlib

/-!
# corecheck: the coverage differential engine of `functions/handle-coverage/main.go`

A shallow embedding of the exclusion policy (`isFileExcluded`), the line classifier
(`isLineCovered`), the two computers (`computeDiffCoverage`, `computeMasterCoverage`) and the
source text provider (`downloadSourceFile`), followed by the properties of the specification
that concern them.

Conventions of the embedding.

* A Go `string` is a Lean `String`; `strings.HasPrefix`, `strings.HasSuffix` and `strings.Split`
  act on its list of characters.  The folders, the extensions and the separator of the code are
  ASCII, for which the comparison by characters and the comparison by bytes of a UTF-8 text agree.
* A Go `int` is a Lean `Int`.  The only arithmetic of the embedded code is `line.LineNumber-1`,
  used as a slice index: an index that is negative or not below the length of the slice is the
  run-time fault of Go, so the result there is `none`.  (At the least `int` the subtraction of Go
  wraps to the greatest `int`, an index out of range as well.)
* Pointers (`job`, `job.CoverageReportID`, `coverage`, `diff` and the elements of the slices) are
  taken to be non-nil and are read as the values they point to.
* A Go `error` result is an `Option Error`, `none` being `nil`; a `(string, error)` result is a pair.
* `for ... range` loops that append to a slice are left folds over the ranged list; loops that
  leave by `return` are recursive functions on the ranged list.
* Log calls have no effect on the results and are left out.
-/

namespace Corecheck

/-! ## Data model -/

/-- Modelled from the spec: the element type of `FileCoverage.Lines` is declared outside the
embedded sources; the fields are those read by `isLineCovered` and `computeMasterCoverage`
(`l.LineNumber`, `l.Count`), the spec's `LineHit { lineNumber, hitCount }`. -/
structure LineHit where
  LineNumber : Int
  Count : Int
  deriving DecidableEq, Repr

/-- Modelled from the spec: the element type of `CoverageData.Files` is declared outside the
embedded sources; the fields are those read by the code (`f.File`, `f.Lines`), the spec's
`FileCoverage { path, lines }`. -/
structure FileCoverage where
  File : String
  Lines : List LineHit
  deriving DecidableEq, Repr

/-- Modelled from the spec: `CoverageData` is declared outside the embedded sources; the code
reads its field `Files`, the spec's ordered collection of `FileCoverage` entries. -/
structure CoverageData where
  Files : List FileCoverage
  deriving DecidableEq, Repr

/-- The line modes of `diffparser` (`ADDED`, `REMOVED`, `UNCHANGED`). -/
inductive DiffLineMode where
  | ADDED
  | REMOVED
  | UNCHANGED
  deriving DecidableEq, Repr

/-- The fields of `diffparser.DiffLine` read by `computeDiffCoverage`. -/
structure DiffLine where
  Mode : DiffLineMode
  Number : Int
  Content : String
  deriving DecidableEq, Repr

/-- The field of `diffparser.DiffRange` read by `computeDiffCoverage`. -/
structure DiffRange where
  Lines : List DiffLine
  deriving DecidableEq, Repr

/-- The field of `diffparser.DiffHunk` read by `computeDiffCoverage`. -/
structure DiffHunk where
  NewRange : DiffRange
  deriving DecidableEq, Repr

/-- The fields of `diffparser.DiffFile` read by `computeDiffCoverage`. -/
structure DiffFile where
  NewName : String
  Hunks : List DiffHunk
  deriving DecidableEq, Repr

/-- The field of `diffparser.Diff` read by `computeDiffCoverage`. -/
structure Diff where
  Files : List DiffFile
  deriving DecidableEq, Repr

/-- Modelled from the spec: `db.Job` is declared outside the embedded sources; the computers read
the identifier of the enclosing report (`*job.CoverageReportID`, the spec's opaque `reportId`)
and the commit (`job.Commit`). -/
structure Job where
  CoverageReportID : Int
  Commit : String
  deriving DecidableEq, Repr

/-- Modelled from the spec: `db.CoverageLine` is declared outside the embedded sources; the fields
are those set by the two computers, the spec's `CoverageLineRecord`. -/
structure CoverageLine where
  CoverageReportID : Int
  File : String
  Line : String
  LineNumber : Int
  Covered : Bool
  Testable : Bool
  Changed : Bool
  deriving DecidableEq, Repr

/-- The result type of `isLineCovered`. -/
structure lineCoveredResult where
  Covered : Bool
  Testable : Bool
  deriving DecidableEq, Repr

/-! ## Strings -/

/-- Go `strings.HasPrefix`. -/
def HasPrefix (s pre : String) : Bool :=
  pre.data.isPrefixOf s.data

/-- Go `strings.HasSuffix`. -/
def HasSuffix (s suffix : String) : Bool :=
  suffix.data.isSuffixOf s.data

/-- The pieces of a character list between the occurrences of `sep`; `cur` holds, reversed, the
piece being read. -/
def splitAux (sep : Char) : List Char → List Char → List String
  | [], cur => [String.mk cur.reverse]
  | c :: cs, cur =>
    if c = sep then String.mk cur.reverse :: splitAux sep cs []
    else splitAux sep cs (c :: cur)

/-- Go `strings.Split` for a separator of one character (the code splits at `"\n"`): the
substrings between the separators, one more than there are separators. -/
def Split (s : String) (sep : Char) : List String :=
  splitAux sep s.data []

/-- Go slice indexing `xs[i]` with an `int` index: `none` is the index-out-of-range fault. -/
def index {α : Type} (xs : List α) (i : Int) : Option α :=
  if 0 ≤ i then xs[i.toNat]? else none

/-! ## Exclusion policy -/

def excludedFolders : List String :=
  ["src/test", "src/qt/test", "src/wallet/test", "test", "src/bench"]

def allowedFileExtensions : List String :=
  [".cpp", ".h", ".c"]

/-- The second loop of `isFileExcluded`: `false` at the first extension that `file` ends with,
`true` when the loop runs out. -/
def isFileExcluded.extensions (file : String) : List String → Bool
  | [] => true
  | extension :: rest =>
    if HasSuffix file extension then false else isFileExcluded.extensions file rest

/-- The first loop of `isFileExcluded`: `true` at the first folder that `file` starts with; when
the loop runs out, the second loop over `allowedFileExtensions` follows. -/
def isFileExcluded.folders (file : String) : List String → Bool
  | [] => isFileExcluded.extensions file allowedFileExtensions
  | folder :: rest =>
    if HasPrefix file folder then true else isFileExcluded.folders file rest

def isFileExcluded (file : String) : Bool :=
  isFileExcluded.folders file excludedFolders

/-! ## Line classifier -/

/-- The inner loop of `isLineCovered` over `f.Lines`, with the `return` that follows it. -/
def isLineCovered.lines (line : Int) : List LineHit → lineCoveredResult
  | [] => { Covered := false, Testable := false }
  | l :: rest =>
    if l.LineNumber = line then { Covered := decide (l.Count > 0), Testable := true }
    else isLineCovered.lines line rest

/-- The outer loop of `isLineCovered` over `coverage.Files`, with the `return` that follows it. -/
def isLineCovered.files (file : String) (line : Int) : List FileCoverage → lineCoveredResult
  | [] => { Covered := false, Testable := false }
  | f :: rest =>
    if f.File = file then isLineCovered.lines line f.Lines
    else isLineCovered.files file line rest

def isLineCovered (coverage : CoverageData) (file : String) (line : Int) : lineCoveredResult :=
  isLineCovered.files file line coverage.Files

/-! ## Differential computer -/

/-- The three nested `range` loops of `computeDiffCoverage`, each appending to `lines`.  (The
counter `hunks` of the source is never read and is left out.) -/
def computeDiffCoverage (job : Job) (coverage : CoverageData) (diff : Diff) : List CoverageLine :=
  diff.Files.foldl (fun lines file =>
    if isFileExcluded file.NewName then lines
    else
      file.Hunks.foldl (fun lines hunk =>
        hunk.NewRange.Lines.foldl (fun lines diffLine =>
          let coveredResult := isLineCovered coverage file.NewName diffLine.Number
          lines ++ [{ CoverageReportID := job.CoverageReportID
                      File := file.NewName
                      Line := diffLine.Content
                      LineNumber := diffLine.Number
                      Covered := coveredResult.Covered
                      Testable := coveredResult.Testable
                      Changed := decide (diffLine.Mode = DiffLineMode.ADDED) }]) lines) lines) []

/-! ## Source text provider -/

/-- A non-nil Go `error`, with its message. -/
structure Error where
  msg : String
  deriving DecidableEq, Repr

/-- What `http.Get` followed by `io.ReadAll(resp.Body)` can produce: a transport error (no
response), or a response with its status code and the outcome of reading its body. -/
inductive GetResult where
  | transportError (err : Error)
  | response (StatusCode : Int) (body : Except Error String)

/-- A Go `map[string]string`. -/
abbrev Cache := String → Option String

/-- Go `cache[file]` on a map: the zero value `""` when the key is absent. -/
def Cache.get (cache : Cache) (file : String) : String :=
  (cache file).getD ""

/-- Go `cache[file] = content`. -/
def Cache.set (cache : Cache) (file content : String) : Cache :=
  fun k => if k = file then some content else cache k

def StatusOK : Int := 200

/-- The part of `downloadSourceFile` after the cache lookup: the GET, the status check, the read
of the body and the store into a non-nil cache. -/
def downloadSourceFile.download (httpGet : String → GetResult) (commit file : String)
    (cache : Option Cache) : (String × Option Error) × Option Cache :=
  match httpGet ("https://raw.githubusercontent.com/bitcoin/bitcoin/" ++ commit ++ "/" ++ file) with
  | .transportError e => (("", some e), cache)
  | .response status body =>
    -- the variable `err` of the source: the second result of `http.Get`, nil on this path
    let err : Option Error := none
    if status ≠ StatusOK then (("", err), cache)
    else
      match body with
      | .error e => (("", some e), cache)
      | .ok content => ((content, none), cache.map (fun c => c.set file content))

/-- The function `downloadSourceFile`; `httpGet` is the behaviour of `http.Get` on a URL, and the
`cache` argument is `none` for a nil map.  The result is the returned pair `(text, err)` and the
cache as the call leaves it. -/
def downloadSourceFile (httpGet : String → GetResult) (commit file : String)
    (cache : Option Cache) : (String × Option Error) × Option Cache :=
  match cache with
  | some c =>
    if c.get file ≠ "" then ((c.get file, none), cache)
    else downloadSourceFile.download httpGet commit file cache
  | none => downloadSourceFile.download httpGet commit file cache

/-! ## Baseline computer -/

/-- The record literal appended by `computeMasterCoverage` for the hit `line` of the file at
`path`, `text` being the value of `contentSplit[line.LineNumber-1]`. -/
def computeMasterCoverage.record (job : Job) (path text : String) (line : LineHit) :
    CoverageLine :=
  { CoverageReportID := job.CoverageReportID
    File := path
    Line := text
    LineNumber := line.LineNumber
    Covered := decide (line.Count > 0)
    Testable := true
    Changed := false }

/-- The body of the inner loop of `computeMasterCoverage`: `none` when
`contentSplit[line.LineNumber-1]` is out of range. -/
def computeMasterCoverage.appendLine (job : Job) (file : FileCoverage)
    (contentSplit : List String) (lines : List CoverageLine) (line : LineHit) :
    Option (List CoverageLine) :=
  match index contentSplit (line.LineNumber - 1) with
  | none => none
  | some text => some (lines ++ [computeMasterCoverage.record job file.File text line])

/-- The body of the outer loop of `computeMasterCoverage`: the two `continue`s, then the split of
the fetched text and the inner loop over `file.Lines`. -/
def computeMasterCoverage.appendFile (httpGet : String → GetResult) (job : Job)
    (lines : List CoverageLine) (file : FileCoverage) : Option (List CoverageLine) :=
  if isFileExcluded file.File then some lines
  else
    match (downloadSourceFile httpGet job.Commit file.File none).1 with
    | (_, some _) => some lines
    | (fileContent, none) =>
      file.Lines.foldlM (computeMasterCoverage.appendLine job file (Split fileContent '\n')) lines

/-- The function `computeMasterCoverage`; `httpGet` is the behaviour of `http.Get`.  The result
is `none` when the run faults on an index out of range. -/
def computeMasterCoverage (httpGet : String → GetResult) (job : Job) (coverage : CoverageData) :
    Option (List CoverageLine) :=
  coverage.Files.foldlM (computeMasterCoverage.appendFile httpGet job) []

/-- The records of one file of the report in a run of `computeMasterCoverage` that does not
fault: none for an excluded file or a failed fetch, else one per hit, in the order of the hits. -/
def computeMasterCoverage.fileRecords (httpGet : String → GetResult) (job : Job)
    (file : FileCoverage) : List CoverageLine :=
  if isFileExcluded file.File then []
  else
    match (downloadSourceFile httpGet job.Commit file.File none).1 with
    | (_, some _) => []
    | (fileContent, none) =>
      file.Lines.map (fun line =>
        computeMasterCoverage.record job file.File
          ((index (Split fileContent '\n') (line.LineNumber - 1)).getD "") line)

/-- Every index `line.LineNumber-1` that a run of `computeMasterCoverage` takes in the split text
of `file` is in range. -/
def computeMasterCoverage.inRange (httpGet : String → GetResult) (job : Job)
    (file : FileCoverage) : Prop :=
  isFileExcluded file.File = false →
    ∀ text, (downloadSourceFile httpGet job.Commit file.File none).1 = (text, none) →
      ∀ line ∈ file.Lines, ∃ t, index (Split text '\n') (line.LineNumber - 1) = some t

/-! ## Lemmas on the loops -/

theorem foldl_append_flatMap {α β : Type} (F : List β → α → List β) (G : α → List β)
    (h : ∀ acc x, F acc x = acc ++ G x) (l : List α) (init : List β) :
    l.foldl F init = init ++ l.flatMap G := by
  induction l generalizing init with
  | nil => simp
  | cons x xs ih => simp [List.foldl_cons, h, ih, List.flatMap_cons, List.append_assoc]

theorem foldl_append_map {α β : Type} (g : α → β) (l : List α) (init : List β) :
    l.foldl (fun acc x => acc ++ [g x]) init = init ++ l.map g := by
  induction l generalizing init with
  | nil => simp
  | cons x xs ih => simp [List.foldl_cons, ih, List.append_assoc]

theorem isFileExcluded.extensions_eq_true (file : String) (exts : List String) :
    isFileExcluded.extensions file exts = true ↔ ∀ ext ∈ exts, HasSuffix file ext = false := by
  induction exts with
  | nil => simp [isFileExcluded.extensions]
  | cons e rest ih =>
    by_cases h : HasSuffix file e = true
    · simp [isFileExcluded.extensions, h]
    · simp [isFileExcluded.extensions, h, ih]

theorem isFileExcluded.folders_eq_true (file : String) (folders : List String) :
    isFileExcluded.folders file folders = true ↔
      (∃ folder ∈ folders, HasPrefix file folder = true) ∨
        ∀ ext ∈ allowedFileExtensions, HasSuffix file ext = false := by
  induction folders with
  | nil => simp [isFileExcluded.folders, isFileExcluded.extensions_eq_true]
  | cons d rest ih =>
    by_cases h : HasPrefix file d = true
    · simp [isFileExcluded.folders, h]
    · simp [isFileExcluded.folders, h, ih]

/-- The inner loop misses when no hit of the list has the line number. -/
theorem isLineCovered.lines_miss (line : Int) (ls : List LineHit)
    (h : ∀ l ∈ ls, l.LineNumber ≠ line) :
    isLineCovered.lines line ls = { Covered := false, Testable := false } := by
  induction ls with
  | nil => rfl
  | cons l rest ih =>
    have h1 : l.LineNumber ≠ line := h l (List.mem_cons_self _ _)
    have h2 : ∀ l ∈ rest, l.LineNumber ≠ line := fun l hl => h l (List.mem_cons_of_mem _ hl)
    simp [isLineCovered.lines, h1, ih h2]

/-- The inner loop finds the count `c` when the list has a hit at the line and every hit at the
line has count `c`. -/
theorem isLineCovered.lines_hit (line c : Int) (ls : List LineHit)
    (hex : ∃ l ∈ ls, l.LineNumber = line)
    (hall : ∀ l ∈ ls, l.LineNumber = line → l.Count = c) :
    isLineCovered.lines line ls = { Covered := decide (c > 0), Testable := true } := by
  induction ls with
  | nil => simp at hex
  | cons l rest ih =>
    by_cases h1 : l.LineNumber = line
    · have hc : l.Count = c := hall l (List.mem_cons_self _ _) h1
      simp [isLineCovered.lines, h1, hc]
    · have hex2 : ∃ l ∈ rest, l.LineNumber = line := by
        obtain ⟨l2, hl2, hn⟩ := hex
        rcases List.mem_cons.mp hl2 with rfl | hm
        · exact absurd hn h1
        · exact ⟨l2, hm, hn⟩
      have hall2 : ∀ l ∈ rest, l.LineNumber = line → l.Count = c :=
        fun l hl => hall l (List.mem_cons_of_mem _ hl)
      simp [isLineCovered.lines, h1, ih hex2 hall2]

/-- The outer loop misses when no entry of the list has the path. -/
theorem isLineCovered.files_miss (file : String) (line : Int) (fs : List FileCoverage)
    (h : ∀ fc ∈ fs, fc.File ≠ file) :
    isLineCovered.files file line fs = { Covered := false, Testable := false } := by
  induction fs with
  | nil => rfl
  | cons f rest ih =>
    have h1 : f.File ≠ file := h f (List.mem_cons_self _ _)
    have h2 : ∀ fc ∈ rest, fc.File ≠ file := fun fc hfc => h fc (List.mem_cons_of_mem _ hfc)
    simp [isLineCovered.files, h1, ih h2]

/-- The outer loop returns `r` when some entry has the path and the inner loop returns `r` on
every entry that has the path. -/
theorem isLineCovered.files_all (file : String) (line : Int) (r : lineCoveredResult)
    (fs : List FileCoverage) (hex : ∃ fc ∈ fs, fc.File = file)
    (hall : ∀ fc ∈ fs, fc.File = file → isLineCovered.lines line fc.Lines = r) :
    isLineCovered.files file line fs = r := by
  induction fs with
  | nil => simp at hex
  | cons f rest ih =>
    by_cases h1 : f.File = file
    · simp [isLineCovered.files, h1, hall f (List.mem_cons_self _ _) h1]
    · have hex2 : ∃ fc ∈ rest, fc.File = file := by
        obtain ⟨f2, hf2, hn⟩ := hex
        rcases List.mem_cons.mp hf2 with rfl | hm
        · exact absurd hn h1
        · exact ⟨f2, hm, hn⟩
      have hall2 : ∀ fc ∈ rest, fc.File = file → isLineCovered.lines line fc.Lines = r :=
        fun fc hfc => hall fc (List.mem_cons_of_mem _ hfc)
      simp [isLineCovered.files, h1, ih hex2 hall2]

/-- With unique line numbers, a hit of the list at the line is the one the inner loop finds. -/
theorem isLineCovered.lines_of_mem (line c : Int) (ls : List LineHit)
    (hnd : (ls.map (fun l => l.LineNumber)).Nodup)
    (hmem : ({ LineNumber := line, Count := c } : LineHit) ∈ ls) :
    isLineCovered.lines line ls = { Covered := decide (c > 0), Testable := true } := by
  induction ls with
  | nil => simp at hmem
  | cons l rest ih =>
    rw [List.map_cons, List.nodup_cons] at hnd
    rcases List.mem_cons.mp hmem with rfl | hm
    · simp [isLineCovered.lines]
    · have h1 : l.LineNumber ≠ line := by
        intro heq
        apply hnd.1
        rw [heq]
        exact List.mem_map.mpr ⟨_, hm, rfl⟩
      simp [isLineCovered.lines, h1, ih hnd.2 hm]

/-- With unique paths, an entry of the list is the one the outer loop finds for its path. -/
theorem isLineCovered.files_of_mem (line : Int) (fc : FileCoverage) (fs : List FileCoverage)
    (hnd : (fs.map (fun f => f.File)).Nodup) (hmem : fc ∈ fs) :
    isLineCovered.files fc.File line fs = isLineCovered.lines line fc.Lines := by
  induction fs with
  | nil => simp at hmem
  | cons f rest ih =>
    rw [List.map_cons, List.nodup_cons] at hnd
    rcases List.mem_cons.mp hmem with rfl | hm
    · simp [isLineCovered.files]
    · have h1 : f.File ≠ fc.File := by
        intro heq
        apply hnd.1
        rw [heq]
        exact List.mem_map.mpr ⟨_, hm, rfl⟩
      simp [isLineCovered.files, h1, ih hnd.2 hm]

/-- Every result of the inner loop has `Covered` only with `Testable`. -/
theorem isLineCovered.lines_covered_testable (line : Int) (ls : List LineHit) :
    (isLineCovered.lines line ls).Covered = true → (isLineCovered.lines line ls).Testable = true := by
  induction ls with
  | nil => simp [isLineCovered.lines]
  | cons l rest ih =>
    by_cases h1 : l.LineNumber = line
    · simp [isLineCovered.lines, h1]
    · simpa [isLineCovered.lines, h1] using ih

/-- Every result of `isLineCovered` has `Covered` only with `Testable`. -/
theorem isLineCovered_covered_testable (coverage : CoverageData) (file : String) (line : Int) :
    (isLineCovered coverage file line).Covered = true →
      (isLineCovered coverage file line).Testable = true := by
  unfold isLineCovered
  induction coverage.Files with
  | nil => simp [isLineCovered.files]
  | cons f rest ih =>
    by_cases h1 : f.File = file
    · simpa [isLineCovered.files, h1] using isLineCovered.lines_covered_testable line f.Lines
    · simpa [isLineCovered.files, h1] using ih

/-- The differential computer as a map over the lines of the hunks of the files it keeps. -/
theorem computeDiffCoverage_eq (job : Job) (coverage : CoverageData) (diff : Diff) :
    computeDiffCoverage job coverage diff =
      (diff.Files.filter (fun file => !isFileExcluded file.NewName)).flatMap (fun file =>
        file.Hunks.flatMap (fun hunk =>
          hunk.NewRange.Lines.map (fun line =>
            { CoverageReportID := job.CoverageReportID
              File := file.NewName
              Line := line.Content
              LineNumber := line.Number
              Covered := (isLineCovered coverage file.NewName line.Number).Covered
              Testable := (isLineCovered coverage file.NewName line.Number).Testable
              Changed := decide (line.Mode = DiffLineMode.ADDED) }))) := by
  unfold computeDiffCoverage
  rw [foldl_append_flatMap _ (fun file =>
    if isFileExcluded file.NewName then []
    else file.Hunks.flatMap (fun hunk =>
      hunk.NewRange.Lines.map (fun line =>
        { CoverageReportID := job.CoverageReportID
          File := file.NewName
          Line := line.Content
          LineNumber := line.Number
          Covered := (isLineCovered coverage file.NewName line.Number).Covered
          Testable := (isLineCovered coverage file.NewName line.Number).Testable
          Changed := decide (line.Mode = DiffLineMode.ADDED) })))]
  · rw [List.nil_append]
    induction diff.Files with
    | nil => rfl
    | cons file rest ih =>
      by_cases hx : isFileExcluded file.NewName = true
      · simp [List.flatMap_cons, List.filter_cons, hx, ih]
      · simp [List.flatMap_cons, List.filter_cons, hx, ih]
  · intro acc file
    by_cases hx : isFileExcluded file.NewName = true
    · simp [hx]
    · simp only [hx, if_false, Bool.false_eq_true]
      rw [foldl_append_flatMap _ (fun hunk =>
        hunk.NewRange.Lines.map (fun line =>
          ({ CoverageReportID := job.CoverageReportID
             File := file.NewName
             Line := line.Content
             LineNumber := line.Number
             Covered := (isLineCovered coverage file.NewName line.Number).Covered
             Testable := (isLineCovered coverage file.NewName line.Number).Testable
             Changed := decide (line.Mode = DiffLineMode.ADDED) } : CoverageLine)))]
      intro acc2 hunk
      exact foldl_append_map _ _ _

theorem index_of_le {α : Type} (xs : List α) (n : Int) (h1 : 1 ≤ n) (h2 : n ≤ xs.length) :
    ∃ t, index xs (n - 1) = some t := by
  have h0 : 0 ≤ n - 1 := by omega
  have hlt : (n - 1).toNat < xs.length := by omega
  exact ⟨xs[(n - 1).toNat], by simp [index, h0, List.getElem?_eq_getElem hlt]⟩

/-- The inner loop of the baseline computer: it ends without fault exactly when every index is
in range, and then appends one record per hit, in order. -/
theorem computeMasterCoverage.lines_eq_some (job : Job) (file : FileCoverage)
    (contentSplit : List String) (ls : List LineHit) (init out : List CoverageLine) :
    ls.foldlM (computeMasterCoverage.appendLine job file contentSplit) init = some out ↔
      (∀ line ∈ ls, ∃ t, index contentSplit (line.LineNumber - 1) = some t) ∧
        out = init ++ ls.map (fun line =>
          computeMasterCoverage.record job file.File
            ((index contentSplit (line.LineNumber - 1)).getD "") line) := by
  induction ls generalizing init with
  | nil =>
    simp only [List.foldlM_nil, List.map_nil, List.append_nil, List.not_mem_nil]
    constructor
    · intro h
      exact ⟨fun _ hl => absurd hl (by simp), (Option.some.inj h).symm⟩
    · intro h
      rw [h.2]; rfl
  | cons l rest ih =>
    rw [List.foldlM_cons]
    cases hidx : index contentSplit (l.LineNumber - 1) with
    | none =>
      simp only [computeMasterCoverage.appendLine, hidx]
      constructor
      · intro h
        simp at h
      · intro h
        obtain ⟨t, ht⟩ := h.1 l (List.mem_cons_self _ _)
        rw [hidx] at ht
        exact absurd ht (by simp)
    | some t =>
      simp only [computeMasterCoverage.appendLine, hidx]
      have hb : ∀ x : List CoverageLine, (some x >>= fun init2 =>
          List.foldlM (computeMasterCoverage.appendLine job file contentSplit) init2 rest) =
          List.foldlM (computeMasterCoverage.appendLine job file contentSplit) x rest :=
        fun _ => rfl
      rw [hb, ih]
      simp only [List.mem_cons, List.map_cons, hidx, Option.getD_some, List.append_assoc,
        List.singleton_append, forall_eq_or_imp]
      constructor
      · rintro ⟨h1, h2⟩
        exact ⟨⟨⟨t, rfl⟩, h1⟩, h2⟩
      · rintro ⟨⟨_, h1⟩, h2⟩
        exact ⟨h1, h2⟩

/-- One step of the outer loop of the baseline computer. -/
theorem computeMasterCoverage.appendFile_eq_some (httpGet : String → GetResult) (job : Job)
    (file : FileCoverage) (init out : List CoverageLine) :
    computeMasterCoverage.appendFile httpGet job init file = some out ↔
      computeMasterCoverage.inRange httpGet job file ∧
        out = init ++ computeMasterCoverage.fileRecords httpGet job file := by
  unfold computeMasterCoverage.appendFile computeMasterCoverage.fileRecords
    computeMasterCoverage.inRange
  by_cases hx : isFileExcluded file.File = true
  · simp only [hx, if_true, List.append_nil]
    constructor
    · intro h
      exact ⟨fun h2 => absurd h2 (by simp), (Option.some.inj h).symm⟩
    · intro h
      rw [h.2]
  · have hx2 : isFileExcluded file.File = false := by simpa using hx
    simp only [hx2, if_false, Bool.false_eq_true, true_implies]
    rcases hd : (downloadSourceFile httpGet job.Commit file.File none).1 with ⟨text, err⟩
    cases err with
    | some e =>
      simp only [List.append_nil]
      constructor
      · intro h
        refine ⟨fun text2 h2 => ?_, (Option.some.inj h).symm⟩
        simp at h2
      · intro h
        rw [h.2]
    | none =>
      simp only [computeMasterCoverage.lines_eq_some]
      constructor
      · rintro ⟨h1, h2⟩
        refine ⟨fun text2 h2 => ?_, h2⟩
        have : text = text2 := by simpa using h2
        subst this
        exact h1
      · rintro ⟨h1, h2⟩
        exact ⟨h1 text rfl, h2⟩

/-- The outer loop of the baseline computer: it ends without fault exactly when every index
taken is in range, and then appends the records of each file, in order. -/
theorem computeMasterCoverage.files_eq_some (httpGet : String → GetResult) (job : Job)
    (fs : List FileCoverage) (init out : List CoverageLine) :
    fs.foldlM (computeMasterCoverage.appendFile httpGet job) init = some out ↔
      (∀ file ∈ fs, computeMasterCoverage.inRange httpGet job file) ∧
        out = init ++ fs.flatMap (computeMasterCoverage.fileRecords httpGet job) := by
  induction fs generalizing init with
  | nil =>
    simp only [List.foldlM_nil, List.flatMap_nil, List.append_nil, List.not_mem_nil]
    constructor
    · intro h
      exact ⟨fun _ hl => absurd hl (by simp), (Option.some.inj h).symm⟩
    · intro h
      rw [h.2]; rfl
  | cons f rest ih =>
    rw [List.foldlM_cons]
    cases hstep : computeMasterCoverage.appendFile httpGet job init f with
    | none =>
      constructor
      · intro h
        simp at h
      · intro h
        have h1 := h.1 f (List.mem_cons_self _ _)
        have := (computeMasterCoverage.appendFile_eq_some httpGet job f init
          (init ++ computeMasterCoverage.fileRecords httpGet job f)).mpr ⟨h1, rfl⟩
        rw [hstep] at this
        exact absurd this (by simp)
    | some mid =>
      have hmid := (computeMasterCoverage.appendFile_eq_some httpGet job f init mid).mp hstep
      have hb : (some mid >>= fun init2 =>
          List.foldlM (computeMasterCoverage.appendFile httpGet job) init2 rest) =
          List.foldlM (computeMasterCoverage.appendFile httpGet job) mid rest := rfl
      rw [hb, ih, hmid.2]
      simp only [List.mem_cons, List.flatMap_cons, List.append_assoc, forall_eq_or_imp]
      constructor
      · rintro ⟨h1, h2⟩
        exact ⟨⟨hmid.1, h1⟩, h2⟩
      · rintro ⟨⟨_, h1⟩, h2⟩
        exact ⟨h1, h2⟩

/-- The baseline computer returns exactly when every index taken is in range, and then returns
the records of each file of the report, in order. -/
theorem computeMasterCoverage_eq_some (httpGet : String → GetResult) (job : Job)
    (coverage : CoverageData) (out : List CoverageLine) :
    computeMasterCoverage httpGet job coverage = some out ↔
      (∀ file ∈ coverage.Files, computeMasterCoverage.inRange httpGet job file) ∧
        out = coverage.Files.flatMap (computeMasterCoverage.fileRecords httpGet job) := by
  unfold computeMasterCoverage
  rw [computeMasterCoverage.files_eq_some]
  simp

/-- Every record of a file of the report carries the path of the file, the number and the count
of one of its hits, and `Testable = true`. -/
theorem computeMasterCoverage.mem_fileRecords (httpGet : String → GetResult) (job : Job)
    (file : FileCoverage) (r : CoverageLine)
    (hr : r ∈ computeMasterCoverage.fileRecords httpGet job file) :
    isFileExcluded file.File = false ∧
      ∃ text, (downloadSourceFile httpGet job.Commit file.File none).1 = (text, none) ∧
        ∃ line ∈ file.Lines, r = computeMasterCoverage.record job file.File
          ((index (Split text '\n') (line.LineNumber - 1)).getD "") line := by
  unfold computeMasterCoverage.fileRecords at hr
  by_cases hx : isFileExcluded file.File = true
  · simp [hx] at hr
  · have hx2 : isFileExcluded file.File = false := by simpa using hx
    refine ⟨hx2, ?_⟩
    simp only [hx2, if_false, Bool.false_eq_true] at hr
    rcases hd : (downloadSourceFile httpGet job.Commit file.File none).1 with ⟨text, err⟩
    rw [hd] at hr
    cases err with
    | some e => simp at hr
    | none =>
      simp only [List.mem_map] at hr
      obtain ⟨line, hl, hrl⟩ := hr
      exact ⟨text, rfl, line, hl, hrl.symm⟩

/-- The in-range condition of a run follows when every line number lies between 1 and the number
of lines of the fetched text. -/
theorem computeMasterCoverage.inRange_of_le (httpGet : String → GetResult) (job : Job)
    (file : FileCoverage)
    (h : isFileExcluded file.File = false →
      ∀ text, (downloadSourceFile httpGet job.Commit file.File none).1 = (text, none) →
        ∀ line ∈ file.Lines, 1 ≤ line.LineNumber ∧
          line.LineNumber ≤ ((Split text '\n').length : Int)) :
    computeMasterCoverage.inRange httpGet job file :=
  fun hx text ht line hl =>
    index_of_le (Split text '\n') line.LineNumber (h hx text ht line hl).1 (h hx text ht line hl).2

/-- The records of one file of the report that carry the path `B`, when `B` is not excluded and
its fetch gives `textB`: all of them when the file has path `B`, none otherwise. -/
theorem computeMasterCoverage.fileRecords_filter (httpGet : String → GetResult) (job : Job)
    (file : FileCoverage) (B textB : String) (hBx : isFileExcluded B = false)
    (hB : (downloadSourceFile httpGet job.Commit B none).1 = (textB, none)) :
    (computeMasterCoverage.fileRecords httpGet job file).filter (fun r => decide (r.File = B)) =
      if file.File = B then
        file.Lines.map (fun line =>
          computeMasterCoverage.record job B
            ((index (Split textB '\n') (line.LineNumber - 1)).getD "") line)
      else [] := by
  by_cases hf : file.File = B
  · rw [if_pos hf]
    unfold computeMasterCoverage.fileRecords
    rw [hf, hBx, hB]
    simp only [if_false, Bool.false_eq_true]
    apply List.filter_eq_self.mpr
    intro r hr
    obtain ⟨line, _, rfl⟩ := List.mem_map.mp hr
    simp [computeMasterCoverage.record]
  · rw [if_neg hf]
    apply List.filter_eq_nil_iff.mpr
    intro r hr
    obtain ⟨_, _, _, line, _, rfl⟩ := computeMasterCoverage.mem_fileRecords httpGet job file r hr
    simpa [computeMasterCoverage.record] using hf

theorem flatMap_filter_fileRecords (httpGet : String → GetResult) (job : Job)
    (fs : List FileCoverage) (B textB : String) (hBx : isFileExcluded B = false)
    (hB : (downloadSourceFile httpGet job.Commit B none).1 = (textB, none)) :
    (fs.flatMap (computeMasterCoverage.fileRecords httpGet job)).filter
        (fun r => decide (r.File = B)) =
      (fs.filter (fun fc => decide (fc.File = B))).flatMap (fun fc =>
        fc.Lines.map (fun line =>
          computeMasterCoverage.record job B
            ((index (Split textB '\n') (line.LineNumber - 1)).getD "") line)) := by
  induction fs with
  | nil => rfl
  | cons f rest ih =>
    rw [List.flatMap_cons, List.filter_append, ih,
      computeMasterCoverage.fileRecords_filter httpGet job f B textB hBx hB]
    by_cases hf : f.File = B
    · simp [hf, List.filter_cons, List.flatMap_cons]
    · simp [hf, List.filter_cons]

/-- With unique paths and unique line numbers within each entry, the classifier finds every hit
of every entry of the report. -/
theorem isLineCovered_of_unique_paths (coverage : CoverageData) (fc : FileCoverage) (l : LineHit)
    (hpaths : (coverage.Files.map (fun fc => fc.File)).Nodup)
    (hlines : ∀ fc ∈ coverage.Files, (fc.Lines.map (fun l => l.LineNumber)).Nodup)
    (hfc : fc ∈ coverage.Files) (hl : l ∈ fc.Lines) :
    isLineCovered coverage fc.File l.LineNumber =
      { Covered := decide (l.Count > 0), Testable := true } := by
  unfold isLineCovered
  rw [isLineCovered.files_of_mem l.LineNumber fc coverage.Files hpaths hfc]
  exact isLineCovered.lines_of_mem l.LineNumber l.Count fc.Lines (hlines fc hfc) hl

/-! ## Properties of the specification -/

/-- C1: `computeDiffCoverage` returns one record per line of `hunk.NewRange.Lines` of every hunk
of every diff file whose `NewName` is not excluded, and none for another file, in file order,
then hunk order, then line order; each record has `File = NewName`, `LineNumber = line.Number`,
`Line = line.Content`, `(Covered, Testable) = isLineCovered(coverage, NewName, line.Number)` and
`Changed = (line.Mode == ADDED)`.  In particular, for a non-excluded file `F` with one hunk whose
lines are 10 (unchanged), 11 (unchanged), 12 (added), and a report that has `F`, where `F` has
line 10 with count 0, line 11 with count 3 and no line 12, the output is the three records
`(10, false, true, false)`, `(11, true, true, false)`, `(12, false, false, true)`. -/
theorem computeDiffCoverage_one_record_per_line (job : Job) (coverage : CoverageData)
    (diff : Diff) :
    computeDiffCoverage job coverage diff =
        (diff.Files.filter (fun file => !isFileExcluded file.NewName)).flatMap (fun file =>
          file.Hunks.flatMap (fun hunk =>
            hunk.NewRange.Lines.map (fun line =>
              { CoverageReportID := job.CoverageReportID
                File := file.NewName
                Line := line.Content
                LineNumber := line.Number
                Covered := (isLineCovered coverage file.NewName line.Number).Covered
                Testable := (isLineCovered coverage file.NewName line.Number).Testable
                Changed := decide (line.Mode = DiffLineMode.ADDED) }))) ∧
      ∀ (F c10 c11 c12 : String), isFileExcluded F = false →
        (∃ fc ∈ coverage.Files, fc.File = F) →
        (∀ fc ∈ coverage.Files, fc.File = F →
          (∃ l ∈ fc.Lines, l.LineNumber = 10) ∧ (∀ l ∈ fc.Lines, l.LineNumber = 10 → l.Count = 0) ∧
          (∃ l ∈ fc.Lines, l.LineNumber = 11) ∧ (∀ l ∈ fc.Lines, l.LineNumber = 11 → l.Count = 3) ∧
          (∀ l ∈ fc.Lines, l.LineNumber ≠ 12)) →
        diff.Files = [{ NewName := F, Hunks := [{ NewRange := { Lines :=
          [{ Mode := DiffLineMode.UNCHANGED, Number := 10, Content := c10 },
           { Mode := DiffLineMode.UNCHANGED, Number := 11, Content := c11 },
           { Mode := DiffLineMode.ADDED, Number := 12, Content := c12 }] } }] }] →
        computeDiffCoverage job coverage diff =
          [{ CoverageReportID := job.CoverageReportID, File := F, Line := c10, LineNumber := 10,
             Covered := false, Testable := true, Changed := false },
           { CoverageReportID := job.CoverageReportID, File := F, Line := c11, LineNumber := 11,
             Covered := true, Testable := true, Changed := false },
           { CoverageReportID := job.CoverageReportID, File := F, Line := c12, LineNumber := 12,
             Covered := false, Testable := false, Changed := true }] := by
  refine ⟨computeDiffCoverage_eq job coverage diff, ?_⟩
  intro F c10 c11 c12 hx hex hall hdiff
  have e10 : isLineCovered coverage F 10 = { Covered := false, Testable := true } := by
    have := isLineCovered.files_all F 10 { Covered := decide ((0 : Int) > 0), Testable := true }
      coverage.Files hex
      (fun fc hfc hf => isLineCovered.lines_hit 10 0 fc.Lines (hall fc hfc hf).1 (hall fc hfc hf).2.1)
    simpa [isLineCovered] using this
  have e11 : isLineCovered coverage F 11 = { Covered := true, Testable := true } := by
    have := isLineCovered.files_all F 11 { Covered := decide ((3 : Int) > 0), Testable := true }
      coverage.Files hex
      (fun fc hfc hf =>
        isLineCovered.lines_hit 11 3 fc.Lines (hall fc hfc hf).2.2.1 (hall fc hfc hf).2.2.2.1)
    simpa [isLineCovered] using this
  have e12 : isLineCovered coverage F 12 = { Covered := false, Testable := false } :=
    isLineCovered.files_all F 12 _ coverage.Files hex
      (fun fc hfc hf => isLineCovered.lines_miss 12 fc.Lines (hall fc hfc hf).2.2.2.2)
  rw [computeDiffCoverage_eq, hdiff]
  simp [hx, e10, e11, e12]

/-- The example of C1 on a report with `src/init.cpp` alone. -/
theorem computeDiffCoverage_one_record_per_line_witness :
    computeDiffCoverage { CoverageReportID := 7, Commit := "c0ffee" }
        { Files := [{ File := "src/init.cpp",
                      Lines := [{ LineNumber := 10, Count := 0 }, { LineNumber := 11, Count := 3 }] }] }
        { Files := [{ NewName := "src/init.cpp", Hunks := [{ NewRange := { Lines :=
          [{ Mode := DiffLineMode.UNCHANGED, Number := 10, Content := "int a;" },
           { Mode := DiffLineMode.UNCHANGED, Number := 11, Content := "a = 1;" },
           { Mode := DiffLineMode.ADDED, Number := 12, Content := "// done" }] } }] }] } =
      [{ CoverageReportID := 7, File := "src/init.cpp", Line := "int a;", LineNumber := 10,
         Covered := false, Testable := true, Changed := false },
       { CoverageReportID := 7, File := "src/init.cpp", Line := "a = 1;", LineNumber := 11,
         Covered := true, Testable := true, Changed := false },
       { CoverageReportID := 7, File := "src/init.cpp", Line := "// done", LineNumber := 12,
         Covered := false, Testable := false, Changed := true }] :=
  (computeDiffCoverage_one_record_per_line { CoverageReportID := 7, Commit := "c0ffee" }
    { Files := [{ File := "src/init.cpp",
                  Lines := [{ LineNumber := 10, Count := 0 }, { LineNumber := 11, Count := 3 }] }] }
    { Files := [{ NewName := "src/init.cpp", Hunks := [{ NewRange := { Lines :=
      [{ Mode := DiffLineMode.UNCHANGED, Number := 10, Content := "int a;" },
       { Mode := DiffLineMode.UNCHANGED, Number := 11, Content := "a = 1;" },
       { Mode := DiffLineMode.ADDED, Number := 12, Content := "// done" }] } }] }] }).2
    "src/init.cpp" "int a;" "a = 1;" "// done" (by decide) (by decide) (by decide) rfl

/-- C2, as stated, fails: a report may hold two entries with the same path.  In the report below
line numbers are unique within each entry, and the entry of `src/init.cpp` listed second has a
hit at line 1 with count 5, yet the classifier stops at the first entry of that path, which has
no hit at line 1, and answers `{false, false}`, not `{5 > 0, true}`. -/
theorem duplicate_path_hit_counterexample :
    (∀ fc ∈ ({ Files := [{ File := "src/init.cpp", Lines := [] },
                          { File := "src/init.cpp", Lines := [{ LineNumber := 1, Count := 5 }] }] } :
        CoverageData).Files, (fc.Lines.map (fun l => l.LineNumber)).Nodup) ∧
      (∃ fc ∈ ({ Files := [{ File := "src/init.cpp", Lines := [] },
                            { File := "src/init.cpp", Lines := [{ LineNumber := 1, Count := 5 }] }] } :
        CoverageData).Files, fc.File = "src/init.cpp" ∧
          ({ LineNumber := 1, Count := 5 } : LineHit) ∈ fc.Lines) ∧
      isLineCovered { Files := [{ File := "src/init.cpp", Lines := [] },
                                { File := "src/init.cpp", Lines := [{ LineNumber := 1, Count := 5 }] }] }
        "src/init.cpp" 1 = { Covered := false, Testable := false } ∧
      isLineCovered { Files := [{ File := "src/init.cpp", Lines := [] },
                                { File := "src/init.cpp", Lines := [{ LineNumber := 1, Count := 5 }] }] }
        "src/init.cpp" 1 ≠ { Covered := decide ((5 : Int) > 0), Testable := true } := by
  refine ⟨?_, ?_, ?_, ?_⟩
  · intro fc hfc
    simp only [List.mem_cons, List.mem_singleton, List.not_mem_nil, or_false] at hfc
    rcases hfc with rfl | rfl <;> simp
  · exact ⟨{ File := "src/init.cpp", Lines := [{ LineNumber := 1, Count := 5 }] }, by simp, rfl,
      by simp⟩
  · decide
  · decide

/-- C2, amended: for every coverage report in which paths are unique and line numbers are unique
within each `FileCoverage`, every file `f`, line `n` and count `c`: if the report contains a
`FileCoverage` with path `f` that has a `LineHit` at line `n` with count `c`, then
`isLineCovered(report, f, n) = {Covered: c > 0, Testable: true}`. -/
theorem isLineCovered_hit (coverage : CoverageData) (f : String) (n c : Int)
    (hpaths : (coverage.Files.map (fun fc => fc.File)).Nodup)
    (hlines : ∀ fc ∈ coverage.Files, (fc.Lines.map (fun l => l.LineNumber)).Nodup)
    (hhit : ∃ fc ∈ coverage.Files, fc.File = f ∧
      ({ LineNumber := n, Count := c } : LineHit) ∈ fc.Lines) :
    isLineCovered coverage f n = { Covered := decide (c > 0), Testable := true } := by
  obtain ⟨fc, hfc, hf, hl⟩ := hhit
  subst hf
  unfold isLineCovered
  rw [isLineCovered.files_of_mem n fc coverage.Files hpaths hfc]
  exact isLineCovered.lines_of_mem n c fc.Lines (hlines fc hfc) hl

/-- The amended C2 on a report of two files, at the hit of line 2 with count 5. -/
theorem isLineCovered_hit_witness :
    isLineCovered { Files := [{ File := "src/net.cpp", Lines := [{ LineNumber := 4, Count := 0 }] },
                              { File := "src/init.cpp",
                                Lines := [{ LineNumber := 1, Count := 0 },
                                          { LineNumber := 2, Count := 5 }] }] }
      "src/init.cpp" 2 = { Covered := decide ((5 : Int) > 0), Testable := true } :=
  isLineCovered_hit
    { Files := [{ File := "src/net.cpp", Lines := [{ LineNumber := 4, Count := 0 }] },
                { File := "src/init.cpp",
                  Lines := [{ LineNumber := 1, Count := 0 }, { LineNumber := 2, Count := 5 }] }] }
    "src/init.cpp" 2 5 (by decide) (by decide)
    ⟨{ File := "src/init.cpp",
       Lines := [{ LineNumber := 1, Count := 0 }, { LineNumber := 2, Count := 5 }] },
     by decide, rfl, by decide⟩

/-- C3: for every coverage report, file `f` and line `n`: if no `FileCoverage` of the report has
path `f`, or if the report has `f` but no `LineHit` of `f` has line number `n`, then
`isLineCovered(report, f, n) = {Covered: false, Testable: false}`; the function is total, so the
miss is a result and not a fault. -/
theorem isLineCovered_miss (coverage : CoverageData) (f : String) (n : Int)
    (h : (∀ fc ∈ coverage.Files, fc.File ≠ f) ∨
      ((∃ fc ∈ coverage.Files, fc.File = f) ∧
        ∀ fc ∈ coverage.Files, fc.File = f → ∀ l ∈ fc.Lines, l.LineNumber ≠ n)) :
    isLineCovered coverage f n = { Covered := false, Testable := false } := by
  unfold isLineCovered
  rcases h with h | ⟨hex, hall⟩
  · exact isLineCovered.files_miss f n coverage.Files h
  · exact isLineCovered.files_all f n _ coverage.Files hex
      (fun fc hfc hf => isLineCovered.lines_miss n fc.Lines (hall fc hfc hf))

/-- Both misses of C3 on a report of one file: a path the report lacks, and a line the file lacks. -/
theorem isLineCovered_miss_witness :
    isLineCovered { Files := [{ File := "src/init.cpp",
                                Lines := [{ LineNumber := 1, Count := 2 }] }] }
        "src/net.cpp" 1 = { Covered := false, Testable := false } ∧
      isLineCovered { Files := [{ File := "src/init.cpp",
                                  Lines := [{ LineNumber := 1, Count := 2 }] }] }
        "src/init.cpp" 3 = { Covered := false, Testable := false } :=
  ⟨isLineCovered_miss
      { Files := [{ File := "src/init.cpp", Lines := [{ LineNumber := 1, Count := 2 }] }] }
      "src/net.cpp" 1 (Or.inl (by decide)),
   isLineCovered_miss
      { Files := [{ File := "src/init.cpp", Lines := [{ LineNumber := 1, Count := 2 }] }] }
      "src/init.cpp" 3 (Or.inr ⟨by decide, by decide⟩)⟩

/-- C4: `isFileExcluded(p)` is true if and only if `p` starts with one of the excluded folders
or `p` ends with none of the allowed extensions.  Hence a path with an excluded prefix is
excluded whatever its extension, also with `.cpp`; a path with no excluded prefix and an allowed
extension is not excluded; a path with neither is excluded. -/
theorem isFileExcluded_iff (p : String) :
    (isFileExcluded p = true ↔
        (∃ folder ∈ excludedFolders, HasPrefix p folder = true) ∨
          ∀ ext ∈ allowedFileExtensions, HasSuffix p ext = false) ∧
      ((∃ folder ∈ excludedFolders, HasPrefix p folder = true) →
        (HasSuffix p ".cpp" = true → isFileExcluded p = true) ∧ isFileExcluded p = true) ∧
      ((∀ folder ∈ excludedFolders, HasPrefix p folder = false) →
        (∃ ext ∈ allowedFileExtensions, HasSuffix p ext = true) → isFileExcluded p = false) ∧
      ((∀ folder ∈ excludedFolders, HasPrefix p folder = false) →
        (∀ ext ∈ allowedFileExtensions, HasSuffix p ext = false) → isFileExcluded p = true) ∧
      excludedFolders = ["src/test", "src/qt/test", "src/wallet/test", "test", "src/bench"] ∧
      allowedFileExtensions = [".cpp", ".h", ".c"] := by
  have key := isFileExcluded.folders_eq_true p excludedFolders
  refine ⟨key, ?_, ?_, ?_, rfl, rfl⟩
  · intro h
    have : isFileExcluded p = true := key.mpr (Or.inl h)
    exact ⟨fun _ => this, this⟩
  · intro hpre hext
    cases hv : isFileExcluded p with
    | false => rfl
    | true =>
      exfalso
      rcases key.mp hv with ⟨folder, hm, hf⟩ | hall
      · rw [hpre folder hm] at hf
        exact absurd hf (by simp)
      · obtain ⟨ext, hm, he⟩ := hext
        rw [hall ext hm] at he
        exact absurd he (by simp)
  · intro _ hext
    exact key.mpr (Or.inr hext)

/-- The three consequences of C4 at `src/test/util.cpp`, `src/init.cpp` and `doc/README.md`. -/
theorem isFileExcluded_iff_witness :
    isFileExcluded "src/test/util.cpp" = true ∧ isFileExcluded "src/init.cpp" = false ∧
      isFileExcluded "doc/README.md" = true :=
  ⟨((isFileExcluded_iff "src/test/util.cpp").2.1 ⟨"src/test", by decide, by decide⟩).1 (by decide),
   (isFileExcluded_iff "src/init.cpp").2.2.1 (by decide) ⟨".cpp", by decide, by decide⟩,
   (isFileExcluded_iff "doc/README.md").2.2.2.1 (by decide) (by decide)⟩

/-- C5: every record returned by `computeDiffCoverage` and every record returned by
`computeMasterCoverage`, for every input, satisfies `Covered` implies `Testable`. -/
theorem covered_implies_testable (httpGet : String → GetResult) (job : Job)
    (coverage : CoverageData) (diff : Diff) :
    (∀ r ∈ computeDiffCoverage job coverage diff, r.Covered = true → r.Testable = true) ∧
      ∀ out, computeMasterCoverage httpGet job coverage = some out →
        ∀ r ∈ out, r.Covered = true → r.Testable = true := by
  constructor
  · intro r hr
    rw [computeDiffCoverage_eq] at hr
    simp only [List.mem_flatMap, List.mem_map] at hr
    obtain ⟨file, _, hunk, _, line, _, rfl⟩ := hr
    exact isLineCovered_covered_testable coverage file.NewName line.Number
  · intro out hout r hr _
    rw [((computeMasterCoverage_eq_some httpGet job coverage out).mp hout).2] at hr
    obtain ⟨file, _, hrf⟩ := List.mem_flatMap.mp hr
    obtain ⟨_, _, _, line, _, rfl⟩ := computeMasterCoverage.mem_fileRecords httpGet job file r hrf
    rfl

/-- The invariant of C5 on a run of each computer that returns one covered record. -/
theorem covered_implies_testable_witness :
    (∀ r ∈ computeDiffCoverage { CoverageReportID := 7, Commit := "c0ffee" }
        { Files := [{ File := "src/init.cpp", Lines := [{ LineNumber := 1, Count := 2 }] }] }
        { Files := [{ NewName := "src/init.cpp", Hunks := [{ NewRange := { Lines :=
          [{ Mode := DiffLineMode.ADDED, Number := 1, Content := "int a;" }] } }] }] },
        r.Covered = true → r.Testable = true) ∧
      computeMasterCoverage (fun _ => GetResult.response 200 (Except.ok "int a;"))
        { CoverageReportID := 7, Commit := "c0ffee" }
        { Files := [{ File := "src/init.cpp", Lines := [{ LineNumber := 1, Count := 2 }] }] } =
        some [{ CoverageReportID := 7, File := "src/init.cpp", Line := "int a;", LineNumber := 1,
                Covered := true, Testable := true, Changed := false }] ∧
      ∀ r ∈ [({ CoverageReportID := 7, File := "src/init.cpp", Line := "int a;", LineNumber := 1,
                Covered := true, Testable := true, Changed := false } : CoverageLine)],
        r.Covered = true → r.Testable = true :=
  ⟨(covered_implies_testable (fun _ => GetResult.response 200 (Except.ok "int a;"))
      { CoverageReportID := 7, Commit := "c0ffee" }
      { Files := [{ File := "src/init.cpp", Lines := [{ LineNumber := 1, Count := 2 }] }] }
      { Files := [{ NewName := "src/init.cpp", Hunks := [{ NewRange := { Lines :=
        [{ Mode := DiffLineMode.ADDED, Number := 1, Content := "int a;" }] } }] }] }).1,
   by decide,
   (covered_implies_testable (fun _ => GetResult.response 200 (Except.ok "int a;"))
      { CoverageReportID := 7, Commit := "c0ffee" }
      { Files := [{ File := "src/init.cpp", Lines := [{ LineNumber := 1, Count := 2 }] }] }
      { Files := [{ NewName := "src/init.cpp", Hunks := [{ NewRange := { Lines :=
        [{ Mode := DiffLineMode.ADDED, Number := 1, Content := "int a;" }] } }] }] }).2 _
      (by decide)⟩

/-- C6: with the fetch of a path being `downloadSourceFile` at the commit of the job and a nil
cache: if the fetch of `A` returns an error, the fetch of the non-excluded `B` succeeds with
`textB` (so `A` differs from `B`), and the line numbers of every fetched file lie within its
fetched text, then `computeMasterCoverage` returns (the failure of `A` does not abort the run),
its output has no record with `File = A`, and its records with `File = B` are, in the order of
the lines of `B`, one record per `LineHit` of `B`, carrying the line number of that hit. -/
theorem computeMasterCoverage_skips_failed_fetch (httpGet : String → GetResult) (job : Job)
    (coverage : CoverageData) (A B textB : String)
    (hA : ∃ t e, (downloadSourceFile httpGet job.Commit A none).1 = (t, some e))
    (hB : (downloadSourceFile httpGet job.Commit B none).1 = (textB, none))
    (hBx : isFileExcluded B = false)
    (hrange : ∀ fc ∈ coverage.Files, isFileExcluded fc.File = false →
      ∀ text, (downloadSourceFile httpGet job.Commit fc.File none).1 = (text, none) →
        ∀ line ∈ fc.Lines, 1 ≤ line.LineNumber ∧
          line.LineNumber ≤ ((Split text '\n').length : Int)) :
    ∃ out, computeMasterCoverage httpGet job coverage = some out ∧
      (∀ r ∈ out, r.File ≠ A) ∧
      out.filter (fun r => decide (r.File = B)) =
        (coverage.Files.filter (fun fc => decide (fc.File = B))).flatMap (fun fc =>
          fc.Lines.map (fun line =>
            computeMasterCoverage.record job B
              ((index (Split textB '\n') (line.LineNumber - 1)).getD "") line)) ∧
      (out.filter (fun r => decide (r.File = B))).map (fun r => r.LineNumber) =
        (coverage.Files.filter (fun fc => decide (fc.File = B))).flatMap (fun fc =>
          fc.Lines.map (fun line => line.LineNumber)) := by
  have hout := (computeMasterCoverage_eq_some httpGet job coverage
    (coverage.Files.flatMap (computeMasterCoverage.fileRecords httpGet job))).mpr
    ⟨fun fc hfc => computeMasterCoverage.inRange_of_le httpGet job fc (hrange fc hfc), rfl⟩
  have hfilter := flatMap_filter_fileRecords httpGet job coverage.Files B textB hBx hB
  refine ⟨_, hout, ?_, hfilter, ?_⟩
  · intro r hr hrA
    obtain ⟨file, _, hrf⟩ := List.mem_flatMap.mp hr
    obtain ⟨_, text, ht, line, _, rfl⟩ :=
      computeMasterCoverage.mem_fileRecords httpGet job file r hrf
    obtain ⟨t, e, hte⟩ := hA
    have hfA : file.File = A := hrA
    rw [hfA, hte] at ht
    simp at ht
  · rw [hfilter, List.map_flatMap]
    simp [computeMasterCoverage.record, Function.comp_def]

/-- The skip of C6 on a report of `src/net.cpp`, whose fetch fails, and `src/init.cpp`, fetched as two lines. -/
theorem computeMasterCoverage_skips_failed_fetch_witness :
    ∃ out,
      computeMasterCoverage
        (fun url =>
          if url = "https://raw.githubusercontent.com/bitcoin/bitcoin/c0ffee/src/net.cpp" then
            GetResult.transportError { msg := "timeout" }
          else GetResult.response 200 (Except.ok "int a;\nint b;"))
        { CoverageReportID := 7, Commit := "c0ffee" }
        { Files := [{ File := "src/net.cpp", Lines := [{ LineNumber := 9, Count := 1 }] },
                    { File := "src/init.cpp",
                      Lines := [{ LineNumber := 2, Count := 4 }, { LineNumber := 1, Count := 0 }] }] }
        = some out ∧
      (∀ r ∈ out, r.File ≠ "src/net.cpp") ∧
      out.filter (fun r => decide (r.File = "src/init.cpp")) =
        [{ CoverageReportID := 7, File := "src/init.cpp", Line := "int b;", LineNumber := 2,
           Covered := true, Testable := true, Changed := false },
         { CoverageReportID := 7, File := "src/init.cpp", Line := "int a;", LineNumber := 1,
           Covered := false, Testable := true, Changed := false }] ∧
      (out.filter (fun r => decide (r.File = "src/init.cpp"))).map (fun r => r.LineNumber) =
        [2, 1] :=
  computeMasterCoverage_skips_failed_fetch
    (fun url =>
      if url = "https://raw.githubusercontent.com/bitcoin/bitcoin/c0ffee/src/net.cpp" then
        GetResult.transportError { msg := "timeout" }
      else GetResult.response 200 (Except.ok "int a;\nint b;"))
    { CoverageReportID := 7, Commit := "c0ffee" }
    { Files := [{ File := "src/net.cpp", Lines := [{ LineNumber := 9, Count := 1 }] },
                { File := "src/init.cpp",
                  Lines := [{ LineNumber := 2, Count := 4 }, { LineNumber := 1, Count := 0 }] }] }
    "src/net.cpp" "src/init.cpp" "int a;\nint b;"
    ⟨"", { msg := "timeout" }, by decide⟩ (by decide) (by decide)
    (by
      intro fc hfc hx text ht
      simp only [List.mem_cons, List.mem_singleton, List.not_mem_nil, or_false] at hfc
      rcases hfc with rfl | rfl
      · have h1 : (downloadSourceFile
            (fun url =>
              if url = "https://raw.githubusercontent.com/bitcoin/bitcoin/c0ffee/src/net.cpp" then
                GetResult.transportError { msg := "timeout" }
              else GetResult.response 200 (Except.ok "int a;\nint b;"))
            "c0ffee" "src/net.cpp" none).1 = ("", some { msg := "timeout" }) := by decide
        have h2 : ("", some ({ msg := "timeout" } : Error)) = (text, none) := by
          rw [← ht]; exact h1.symm
        exact absurd (congrArg Prod.snd h2) (by simp)
      · have h2 : ("int a;\nint b;", (none : Option Error)) = (text, none) := by
          rw [← ht]; decide
        have h3 : text = "int a;\nint b;" := (congrArg Prod.fst h2).symm
        subst h3
        decide)

/-- C7: the code at a response whose status is not 200, here 404, with a nil cache (which holds
no path): `downloadSourceFile` returns the empty text with a nil error, for every commit, path
and body, because the `err` it returns is the nil second result of `http.Get`.  The claim asks
for a non-nil error there.  A transport failure and a failed read of the body do return their
error. -/
theorem downloadSourceFile_status_not_ok (commit file : String) (body : Except Error String)
    (e : Error) :
    downloadSourceFile (fun _ => GetResult.response 404 body) commit file none =
        (("", none), none) ∧
      downloadSourceFile (fun _ => GetResult.transportError e) commit file none =
        (("", some e), none) ∧
      downloadSourceFile (fun _ => GetResult.response 200 (Except.error e)) commit file none =
        (("", some e), none) := by
  refine ⟨?_, ?_, ?_⟩
  · simp [downloadSourceFile, downloadSourceFile.download, StatusOK]
  · simp [downloadSourceFile, downloadSourceFile.download]
  · simp [downloadSourceFile, downloadSourceFile.download, StatusOK]

/-- C8, as stated, fails at a cache that holds the empty text for the path: the lookup
`cache[file] != ""` takes it for a miss, so the GET is made; with a failing transport the call
returns an error, with a 200 response it returns the body and stores it in the cache. -/
theorem downloadSourceFile_cache_counterexample :
    (fun k => if k = "src/init.cpp" then some "" else none : Cache) "src/init.cpp" = some "" ∧
      (downloadSourceFile (fun _ => GetResult.transportError { msg := "timeout" }) "c0ffee"
        "src/init.cpp" (some (fun k => if k = "src/init.cpp" then some "" else none))).1 =
        ("", some { msg := "timeout" }) ∧
      (downloadSourceFile (fun _ => GetResult.response 200 (Except.ok "int a;")) "c0ffee"
        "src/init.cpp" (some (fun k => if k = "src/init.cpp" then some "" else none))).1 =
        ("int a;", none) ∧
      (downloadSourceFile (fun _ => GetResult.response 200 (Except.ok "int a;")) "c0ffee"
        "src/init.cpp" (some (fun k => if k = "src/init.cpp" then some "" else none))).2.map
        (fun c => c "src/init.cpp") = some (some "int a;") := by
  refine ⟨?_, ?_, ?_, ?_⟩ <;> decide

/-- C8, amended: for every commit, path and non-nil cache that holds a non-empty text for the
path, `downloadSourceFile` returns that text with no error, whatever the behaviour of the HTTP
GET, and leaves the cache as it is. -/
theorem downloadSourceFile_cache_hit (httpGet : String → GetResult) (commit file : String)
    (cache : Cache) (text : String) (hc : cache file = some text) (hne : text ≠ "") :
    downloadSourceFile httpGet commit file (some cache) = ((text, none), some cache) := by
  have hget : cache.get file = text := by simp [Cache.get, hc]
  simp [downloadSourceFile, hget, hne]

/-- The amended C8 on a cache that holds `int a;` for the path, with a failing transport. -/
theorem downloadSourceFile_cache_hit_witness :
    downloadSourceFile (fun _ => GetResult.transportError { msg := "timeout" }) "c0ffee"
        "src/init.cpp" (some (fun k => if k = "src/init.cpp" then some "int a;" else none)) =
      (("int a;", none), some (fun k => if k = "src/init.cpp" then some "int a;" else none)) :=
  downloadSourceFile_cache_hit (fun _ => GetResult.transportError { msg := "timeout" }) "c0ffee"
    "src/init.cpp" (fun k => if k = "src/init.cpp" then some "int a;" else none) "int a;"
    (by decide) (by decide)

/-- C9, as stated, fails: a report may hold two entries with the same path.  In the report below
line numbers are unique within each entry; the record emitted for the hit at line 1 (count 5) of
the second entry of `src/init.cpp` has `Covered = true`, while the classifier stops at the first
entry of that path and gives `Covered = false` for line 1. -/
theorem computeMasterCoverage_classifier_counterexample :
    (∀ fc ∈ ({ Files := [{ File := "src/init.cpp", Lines := [{ LineNumber := 1, Count := 0 }] },
                          { File := "src/init.cpp", Lines := [{ LineNumber := 1, Count := 5 }] }] } :
        CoverageData).Files, (fc.Lines.map (fun l => l.LineNumber)).Nodup) ∧
      computeMasterCoverage (fun _ => GetResult.response 200 (Except.ok "int a;"))
        { CoverageReportID := 7, Commit := "c0ffee" }
        { Files := [{ File := "src/init.cpp", Lines := [{ LineNumber := 1, Count := 0 }] },
                    { File := "src/init.cpp", Lines := [{ LineNumber := 1, Count := 5 }] }] } =
        some [{ CoverageReportID := 7, File := "src/init.cpp", Line := "int a;", LineNumber := 1,
                Covered := false, Testable := true, Changed := false },
              { CoverageReportID := 7, File := "src/init.cpp", Line := "int a;", LineNumber := 1,
                Covered := true, Testable := true, Changed := false }] ∧
      isLineCovered
        { Files := [{ File := "src/init.cpp", Lines := [{ LineNumber := 1, Count := 0 }] },
                    { File := "src/init.cpp", Lines := [{ LineNumber := 1, Count := 5 }] }] }
        "src/init.cpp" 1 = { Covered := false, Testable := true } ∧
      ({ Covered := false, Testable := true } : lineCoveredResult) ≠
        { Covered := true, Testable := true } := by
  refine ⟨?_, ?_, ?_, ?_⟩
  · intro fc hfc
    simp only [List.mem_cons, List.mem_singleton, List.not_mem_nil, or_false] at hfc
    rcases hfc with rfl | rfl <;> simp
  · decide
  · decide
  · decide

/-- C9, amended: for every coverage report in which paths are unique and line numbers are unique
within each `FileCoverage`, every record that `computeMasterCoverage` returns was emitted for a
`LineHit` with line number `n` of a file with path `f` of the report, and its
`(Covered, Testable)` equals `isLineCovered(report, f, n)`. -/
theorem computeMasterCoverage_agrees_with_isLineCovered (httpGet : String → GetResult)
    (job : Job) (coverage : CoverageData) (out : List CoverageLine)
    (hpaths : (coverage.Files.map (fun fc => fc.File)).Nodup)
    (hlines : ∀ fc ∈ coverage.Files, (fc.Lines.map (fun l => l.LineNumber)).Nodup)
    (hout : computeMasterCoverage httpGet job coverage = some out) :
    ∀ r ∈ out,
      (∃ fc ∈ coverage.Files, ∃ l ∈ fc.Lines, r.File = fc.File ∧ r.LineNumber = l.LineNumber ∧
        r.Covered = decide (l.Count > 0) ∧ r.Testable = true) ∧
      isLineCovered coverage r.File r.LineNumber =
        { Covered := r.Covered, Testable := r.Testable } := by
  intro r hr
  rw [((computeMasterCoverage_eq_some httpGet job coverage out).mp hout).2] at hr
  obtain ⟨file, hfile, hrf⟩ := List.mem_flatMap.mp hr
  obtain ⟨_, _, _, line, hline, rfl⟩ := computeMasterCoverage.mem_fileRecords httpGet job file r hrf
  refine ⟨⟨file, hfile, line, hline, rfl, rfl, rfl, rfl⟩, ?_⟩
  exact isLineCovered_of_unique_paths coverage file line hpaths hlines hfile hline

/-- The amended C9 on a report of one file with two hits, fetched as two lines. -/
theorem computeMasterCoverage_agrees_with_isLineCovered_witness :
    computeMasterCoverage (fun _ => GetResult.response 200 (Except.ok "int a;\nint b;"))
        { CoverageReportID := 7, Commit := "c0ffee" }
        { Files := [{ File := "src/init.cpp",
                      Lines := [{ LineNumber := 2, Count := 4 }, { LineNumber := 1, Count := 0 }] }] }
        = some [{ CoverageReportID := 7, File := "src/init.cpp", Line := "int b;",
                  LineNumber := 2, Covered := true, Testable := true, Changed := false },
                { CoverageReportID := 7, File := "src/init.cpp", Line := "int a;",
                  LineNumber := 1, Covered := false, Testable := true, Changed := false }] ∧
      isLineCovered { Files := [{ File := "src/init.cpp",
                                  Lines := [{ LineNumber := 2, Count := 4 },
                                            { LineNumber := 1, Count := 0 }] }] }
        "src/init.cpp" 2 = { Covered := true, Testable := true } ∧
      isLineCovered { Files := [{ File := "src/init.cpp",
                                  Lines := [{ LineNumber := 2, Count := 4 },
                                            { LineNumber := 1, Count := 0 }] }] }
        "src/init.cpp" 1 = { Covered := false, Testable := true } :=
  ⟨by decide,
   (computeMasterCoverage_agrees_with_isLineCovered
      (fun _ => GetResult.response 200 (Except.ok "int a;\nint b;"))
      { CoverageReportID := 7, Commit := "c0ffee" }
      { Files := [{ File := "src/init.cpp",
                    Lines := [{ LineNumber := 2, Count := 4 }, { LineNumber := 1, Count := 0 }] }] }
      [{ CoverageReportID := 7, File := "src/init.cpp", Line := "int b;",
         LineNumber := 2, Covered := true, Testable := true, Changed := false },
       { CoverageReportID := 7, File := "src/init.cpp", Line := "int a;",
         LineNumber := 1, Covered := false, Testable := true, Changed := false }]
      (by decide) (by decide) (by decide)
      { CoverageReportID := 7, File := "src/init.cpp", Line := "int b;",
        LineNumber := 2, Covered := true, Testable := true, Changed := false }
      (by decide)).2,
   (computeMasterCoverage_agrees_with_isLineCovered
      (fun _ => GetResult.response 200 (Except.ok "int a;\nint b;"))
      { CoverageReportID := 7, Commit := "c0ffee" }
      { Files := [{ File := "src/init.cpp",
                    Lines := [{ LineNumber := 2, Count := 4 }, { LineNumber := 1, Count := 0 }] }] }
      [{ CoverageReportID := 7, File := "src/init.cpp", Line := "int b;",
         LineNumber := 2, Covered := true, Testable := true, Changed := false },
       { CoverageReportID := 7, File := "src/init.cpp", Line := "int a;",
         LineNumber := 1, Covered := false, Testable := true, Changed := false }]
      (by decide) (by decide) (by decide)
      { CoverageReportID := 7, File := "src/init.cpp", Line := "int a;",
        LineNumber := 1, Covered := false, Testable := true, Changed := false }
      (by decide)).2⟩

/-- C10, as stated, fails: positive line numbers do not keep the index within the split text.
With a file fetched as the one-line text `int a;` and a hit at line 2, the index `2 - 1` is out
of range and the run faults. -/
theorem computeMasterCoverage_fault_counterexample :
    (∀ fc ∈ ({ Files := [{ File := "src/init.cpp", Lines := [{ LineNumber := 2, Count := 1 }] }] } :
        CoverageData).Files, ∀ l ∈ fc.Lines, 0 < l.LineNumber) ∧
      isFileExcluded "src/init.cpp" = false ∧
      (downloadSourceFile (fun _ => GetResult.response 200 (Except.ok "int a;")) "c0ffee"
        "src/init.cpp" none).1 = ("int a;", none) ∧
      index (Split "int a;" '\n') (2 - 1) = none ∧
      computeMasterCoverage (fun _ => GetResult.response 200 (Except.ok "int a;"))
        { CoverageReportID := 7, Commit := "c0ffee" }
        { Files := [{ File := "src/init.cpp", Lines := [{ LineNumber := 2, Count := 1 }] }] } =
        none := by
  refine ⟨?_, ?_, ?_, ?_, ?_⟩ <;> decide

/-- C10, amended: for every coverage report and fetched texts such that, for every non-excluded
file whose fetch succeeds, each line number of the file lies between 1 and the number of pieces
of the fetched text split at the newline, `computeMasterCoverage` does not fault: it returns,
and for every record the index `LineNumber - 1` is within the split text of the record's file
and the record's `Line` is the `LineNumber`-th (1-indexed) line of that text. -/
theorem computeMasterCoverage_no_fault (httpGet : String → GetResult) (job : Job)
    (coverage : CoverageData)
    (hrange : ∀ fc ∈ coverage.Files, isFileExcluded fc.File = false →
      ∀ text, (downloadSourceFile httpGet job.Commit fc.File none).1 = (text, none) →
        ∀ line ∈ fc.Lines, 1 ≤ line.LineNumber ∧
          line.LineNumber ≤ ((Split text '\n').length : Int)) :
    ∃ out, computeMasterCoverage httpGet job coverage = some out ∧
      out = coverage.Files.flatMap (computeMasterCoverage.fileRecords httpGet job) ∧
      ∀ r ∈ out, ∃ text,
        (downloadSourceFile httpGet job.Commit r.File none).1 = (text, none) ∧
        0 ≤ r.LineNumber - 1 ∧ r.LineNumber - 1 < ((Split text '\n').length : Int) ∧
        (Split text '\n')[(r.LineNumber - 1).toNat]? = some r.Line ∧
        index (Split text '\n') (r.LineNumber - 1) = some r.Line := by
  have hout := (computeMasterCoverage_eq_some httpGet job coverage
    (coverage.Files.flatMap (computeMasterCoverage.fileRecords httpGet job))).mpr
    ⟨fun fc hfc => computeMasterCoverage.inRange_of_le httpGet job fc (hrange fc hfc), rfl⟩
  refine ⟨_, hout, rfl, ?_⟩
  intro r hr
  obtain ⟨file, hfile, hrf⟩ := List.mem_flatMap.mp hr
  obtain ⟨hx, text, ht, line, hline, rfl⟩ :=
    computeMasterCoverage.mem_fileRecords httpGet job file r hrf
  have hb := hrange file hfile hx text ht line hline
  obtain ⟨t, hidx⟩ := index_of_le (Split text '\n') line.LineNumber hb.1 hb.2
  have h0 : 0 ≤ line.LineNumber - 1 := by omega
  refine ⟨text, ht, h0, by show line.LineNumber - 1 < _; omega, ?_, ?_⟩
  · show (Split text '\n')[(line.LineNumber - 1).toNat]? = some _
    have := hidx
    simp only [index, h0, if_true] at this
    simp only [computeMasterCoverage.record, hidx, Option.getD_some]
    exact this
  · simp [computeMasterCoverage.record, hidx]

/-- The amended C10 on a report of one file with hits at lines 2 and 1, fetched as two lines. -/
theorem computeMasterCoverage_no_fault_witness :
    ∃ out,
      computeMasterCoverage (fun _ => GetResult.response 200 (Except.ok "int a;\nint b;"))
        { CoverageReportID := 7, Commit := "c0ffee" }
        { Files := [{ File := "src/init.cpp",
                      Lines := [{ LineNumber := 2, Count := 4 }, { LineNumber := 1, Count := 0 }] }] }
        = some out ∧
      out = [{ CoverageReportID := 7, File := "src/init.cpp", Line := "int b;", LineNumber := 2,
               Covered := true, Testable := true, Changed := false },
             { CoverageReportID := 7, File := "src/init.cpp", Line := "int a;", LineNumber := 1,
               Covered := false, Testable := true, Changed := false }] ∧
      ∀ r ∈ out, ∃ text,
        (downloadSourceFile (fun _ => GetResult.response 200 (Except.ok "int a;\nint b;"))
          "c0ffee" r.File none).1 = (text, none) ∧
        0 ≤ r.LineNumber - 1 ∧ r.LineNumber - 1 < ((Split text '\n').length : Int) ∧
        (Split text '\n')[(r.LineNumber - 1).toNat]? = some r.Line ∧
        index (Split text '\n') (r.LineNumber - 1) = some r.Line :=
  computeMasterCoverage_no_fault (fun _ => GetResult.response 200 (Except.ok "int a;\nint b;"))
    { CoverageReportID := 7, Commit := "c0ffee" }
    { Files := [{ File := "src/init.cpp",
                  Lines := [{ LineNumber := 2, Count := 4 }, { LineNumber := 1, Count := 0 }] }] }
    (by
      intro fc hfc hx text ht
      simp only [List.mem_singleton] at hfc
      subst hfc
      have h2 : ("int a;\nint b;", (none : Option Error)) = (text, none) := by
        rw [← ht]; decide
      have h3 : text = "int a;\nint b;" := (congrArg Prod.fst h2).symm
      subst h3
      decide)

end Corecheck
